import Mathlib

/-!
Verification of the strmarr STRM-file synchronizer (`index.js`) against its
specification.  The source program is shallowly embedded: JavaScript objects
keyed by strings become association lists (`List (String × String)`) with
`Object.assign` / `obj[k] = v` semantics, the filesystem becomes an explicit
`FS` state record threaded through the functions, and promise rejection
becomes `Except`.  Network and filesystem effects are parameters of the
embedded functions: a `SourceResponse` describes what one HTTP GET produced,
and the `FS` record describes which files exist with which contents, which
directories exist, and which directory creations fail.
-/

/--
A parsed JSON body as far as `synchronize` distinguishes it: either a flat
object (string keys to string values, the shape the endpoints return), or some
other non-null value (number, string, boolean, ...), for which JavaScript's
`typeof mapping === 'object'` check in `synchronize` is false.  A body that
parses to `null` is modelled separately in `BodyParse` because
`Object.keys(null)` throws inside `fetchMapping`'s parse handler.
-/
inductive Js where
  | obj (m : List (String × String))
  | prim
deriving DecidableEq, Repr

/--
The outcome of JSON-parsing a response body in `fetchMapping`
(`JSON.parse(data)` followed by `Object.keys(json)`): `malformed` when
`JSON.parse` throws, `nullValue` when it yields `null` (then `Object.keys`
throws inside the same `try`), `value j` when it yields a non-null value.
-/
inductive BodyParse where
  | malformed
  | nullValue
  | value (j : Js)
deriving DecidableEq, Repr

/--
What one HTTP GET in `fetchMapping` produced: a transport-level failure
(the request's `error` event), or a response with a status code and a body
whose parse outcome is given.
-/
inductive SourceResponse where
  | transportFailure
  | response (status : Nat) (body : BodyParse)
deriving DecidableEq, Repr

/--
The distinct rejection reasons of `fetchMapping` (index.js lines 56-78):
`httpStatus s` for `HTTP error! status: s`, `parseFailed` for
`Failed to parse JSON: ...`, `requestFailed` for `Request failed: ...`.
-/
inductive FetchError where
  | httpStatus (status : Nat)
  | parseFailed
  | requestFailed
deriving DecidableEq, Repr

/--
Embedding of `fetchMapping` (index.js lines 46-81).  The status check
`res.statusCode < 200 || res.statusCode >= 300` rejects before the body is
read; a body whose parse throws (malformed JSON, or `null`, for which the
`Object.keys` call in the same `try` block throws) rejects with the
parse-failure error; any other parsed value is resolved as-is — note that a
well-formed non-object body such as `42` is resolved, not rejected.
-/
def fetchMapping (resp : SourceResponse) : Except FetchError Js :=
  match resp with
  | .transportFailure => .error .requestFailed
  | .response status body =>
      if status < 200 ∨ 300 ≤ status then .error (.httpStatus status)
      else
        match body with
        | .malformed => .error .parseFailed
        | .nullValue => .error .parseFailed
        | .value j => .ok j

/--
JavaScript property assignment `target[k] = v` on a string-keyed object
modelled as an association list: if the key is present its value is replaced
in place (JS preserves the insertion position of an existing key), otherwise
the pair is appended (a fresh key enumerates last).
-/
def objSet (m : List (String × String)) (k v : String) : List (String × String) :=
  if m.any (fun p => p.1 == k) then
    m.map (fun p => if p.1 = k then (k, v) else p)
  else
    m ++ [(k, v)]

/--
`Object.assign(target, source)` on string-keyed objects: every own key of
`source` is assigned into `target` in `source`'s enumeration order.
-/
def objAssign (target source : List (String × String)) : List (String × String) :=
  source.foldl (fun acc p => objSet acc p.1 p.2) target

/-- Property read `m[k]`: the value at the first occurrence of key `k`. -/
def lookupObj (m : List (String × String)) (k : String) : Option String :=
  match m with
  | [] => none
  | (k0, v0) :: rest => if k0 = k then some v0 else lookupObj rest k

/--
The value at the last occurrence of key `k` in a list of pairs; for a raw
mapping parsed from JSON (distinct keys) this agrees with `lookupObj`, and it
is the value that survives `objAssign`.
-/
def lookupLast (m : List (String × String)) (k : String) : Option String :=
  match m with
  | [] => none
  | (k0, v0) :: rest =>
      match lookupLast rest k with
      | some v => some v
      | none => if k0 = k then some v0 else none

/--
The merge loop of `synchronize` (index.js lines 180-201) applied to the
already-settled per-source fetch results: successful fetches whose value
passes the `mapping && typeof mapping === 'object'` check are merged into the
accumulator with `Object.assign` and their key count added to `totalFetched`;
non-object successes and failed fetches contribute nothing and do not abort
the loop.  Returns `(allMappings, totalFetched)`.
-/
def mergeStep (acc : List (String × String) × Nat)
    (r : Except FetchError Js) : List (String × String) × Nat :=
  match r with
  | .ok (.obj m) => (objAssign acc.1 m, acc.2 + m.length)
  | .ok .prim => acc
  | .error _ => acc

def mergeSources (results : List (Except FetchError Js)) :
    List (String × String) × Nat :=
  results.foldl mergeStep ([], 0)

/-- The whitespace characters relevant to this program's file contents. -/
def isWsChar (c : Char) : Bool := c = ' ' || c = '\t' || c = '\n' || c = '\r'

/--
JavaScript `String.prototype.trim` as used on file contents and URLs:
strips leading and trailing whitespace (restricted here to the ASCII
whitespace the program can encounter).
-/
def jsTrim (s : String) : String :=
  ⟨((s.data.dropWhile isWsChar).reverse.dropWhile isWsChar).reverse⟩

/-- JavaScript `String.prototype.endsWith`. -/
def endsWithJS (s suffix : String) : Bool :=
  suffix.data.isSuffixOf s.data

/-- Split a character list at every `/`. -/
def splitOnSlash : List Char → List (List Char)
  | [] => [[]]
  | c :: rest =>
      match splitOnSlash rest with
      | [] => [[c]]
      | h :: t => if c = '/' then [] :: h :: t else (c :: h) :: t

/-- Join character lists with `/` separators. -/
def joinSlash : List (List Char) → List Char
  | [] => []
  | [h] => h
  | h :: t => h ++ '/' :: joinSlash t

/-- The media root, `process.env.MEDIA_PATH`'s default (index.js line 24). -/
def MEDIA_PATH : String := "/app/media"

/--
`join(MEDIA_PATH, filePath)` for the paths this program builds: the base is
absolute with no trailing slash and the keys carry no dot-segments, so the
join is plain concatenation with a separator.
-/
def joinPath (base rel : String) : String := base ++ "/" ++ rel

/--
Node's `dirname` for the slash-joined paths used here: everything before the
last separator, `.` when there is none, `/` when only the leading one.
-/
def dirname (p : String) : String :=
  match (splitOnSlash p.data).dropLast with
  | [] => "."
  | parts =>
      let d : String := ⟨joinSlash parts⟩
      if d = "" then "/" else d

/--
The filesystem state threaded through a run: `files` maps absolute paths of
existing files to their contents, `dirs` lists the directories that exist
besides the always-present media root (`start` creates `MEDIA_PATH` before
any run), and `failDirs` lists directories whose creation (`fs.mkdir`) fails,
e.g. for permissions.
-/
structure FS where
  files : List (String × String)
  dirs : List String
  failDirs : List String
deriving DecidableEq, Repr

/-- `fs.readFile` as used by `writeStrmFile`: any failure counts as absent. -/
def readFileOpt (fs : FS) (p : String) : Option String := lookupObj fs.files p

/--
Whether `fs.writeFile` can succeed at `fullPath`: its parent directory must
exist — it is the media root itself (guaranteed by `start`) or one of the
directories currently present.
-/
def dirAvailable (fs : FS) (fullPath : String) : Bool :=
  dirname fullPath == MEDIA_PATH || fs.dirs.contains (dirname fullPath)

/-- A successful `fs.writeFile fullPath content` (creates or overwrites). -/
def writeFileFS (fs : FS) (p c : String) : FS :=
  { fs with files := objSet fs.files p c }

/-- The only error `writeStrmFile` can throw in this model: a failed write. -/
inductive WriteError where
  | ioError
deriving DecidableEq, Repr

/--
Embedding of `writeStrmFile` (index.js lines 135-163).  Reads the existing
content (any read failure means "does not exist"), then
`if (!fileExists || existingContent.trim() !== url.trim())` writes `url` as
the whole file content and returns `true`, else returns `false` without
writing.  A write into a missing directory throws, which the caller counts
as an error.
-/
def writeStrmFile (fs : FS) (filePath url : String) :
    Except WriteError (FS × Bool) :=
  match readFileOpt fs (joinPath MEDIA_PATH filePath) with
  | some existingContent =>
      if jsTrim existingContent ≠ jsTrim url then
        if dirAvailable fs (joinPath MEDIA_PATH filePath) then
          .ok (writeFileFS fs (joinPath MEDIA_PATH filePath) url, true)
        else .error .ioError
      else .ok (fs, false)
  | none =>
      if dirAvailable fs (joinPath MEDIA_PATH filePath) then
        .ok (writeFileFS fs (joinPath MEDIA_PATH filePath) url, true)
      else .error .ioError

/--
The suffix normalization applied to every key (index.js lines 227 and 247):
`filePath.endsWith('.strm') ? filePath : filePath + '.strm'`.
-/
def normKey (filePath : String) : String :=
  if endsWithJS filePath ".strm" then filePath else filePath ++ ".strm"

/--
Embedding of `collectAllDirectories` (index.js lines 87-100): the unique
immediate parent directories of the joined paths, excluding the media root,
in first-appearance order (`Set` insertion order).
-/
def collectAllDirectories (filePaths : List String) : List String :=
  filePaths.foldl
    (fun acc fp =>
      let parentDir := dirname (joinPath MEDIA_PATH fp)
      if parentDir = MEDIA_PATH then acc
      else if acc.contains parentDir then acc
      else acc ++ [parentDir])
    []

/--
Embedding of `createAllDirectories` (index.js lines 105-127): for each
directory in order, an existence check (`fs.access`), then a recursive
`fs.mkdir` whose failure is logged and skipped — the loop never throws and
always continues with the remaining directories.
-/
def createDirStep (acc : FS) (d : String) : FS :=
  if acc.dirs.contains d then acc
  else if acc.failDirs.contains d then acc
  else { acc with dirs := acc.dirs ++ [d] }

def createAllDirectories (fs : FS) (directories : List String) : FS :=
  directories.foldl createDirStep fs

/--
The per-entry result of the write loop in `synchronize` (index.js lines
241-260): `updated` / `skipped` when `writeStrmFile` returned true / false,
`errored` when it threw, and `dropped` for an entry skipped by the
`if (!filePath || !url) continue` guard — `dropped` increments none of the
three counters.
-/
inductive Outcome where
  | updated
  | skipped
  | errored
  | dropped
deriving DecidableEq, Repr

/--
One iteration of the write loop of `synchronize` (index.js lines 241-260):
the falsy-key/falsy-url guard (`continue`), suffix normalization, then
`writeStrmFile` with its `try`/`catch`.
-/
def processEntry (fs : FS) (filePath url : String) : FS × Outcome :=
  if filePath = "" ∨ url = "" then (fs, .dropped)
  else
    match writeStrmFile fs (normKey filePath) url with
    | .ok (fs1, true) => (fs1, .updated)
    | .ok (fs1, false) => (fs1, .skipped)
    | .error _ => (fs, .errored)

/-- The whole write loop of `synchronize` over `Object.entries(allMappings)`. -/
def processEntries (fs : FS) : List (String × String) → FS × List Outcome
  | [] => (fs, [])
  | (k, v) :: rest =>
      let r := processEntry fs k v
      let rr := processEntries r.1 rest
      (rr.1, r.2 :: rr.2)

/--
Step 1 of `synchronize` (index.js lines 219-229): the normalized paths of the
entries passing the falsy guard, in enumeration order.
-/
def validFilePaths (m : List (String × String)) : List String :=
  m.foldl
    (fun acc e =>
      if e.1 = "" ∨ e.2 = "" then acc else acc ++ [normKey e.1])
    []

/--
The summary `synchronize` logs at the end of a run (index.js lines 265-270):
total entries fetched, unique file paths, and the three outcome counters.
-/
structure Report where
  totalFetched : Nat
  uniquePaths : Nat
  updated : Nat
  skipped : Nat
  errors : Nat
deriving DecidableEq, Repr

/--
Embedding of `synchronize` (index.js lines 168-276) for one run: the fetch
results of the configured sources are merged in configuration order; if the
merged mapping is empty the run returns early — before the directory and
write phases and before the summary, hence the `none` report; otherwise the
parent directories of all valid entries are created first and every entry is
then written/skipped/errored, producing the final summary.
-/
def synchronize (fs : FS) (responses : List SourceResponse) :
    FS × Option Report :=
  let merged := mergeSources (responses.map fetchMapping)
  if merged.1.length = 0 then (fs, none)
  else
    let fs1 := createAllDirectories fs
      (collectAllDirectories (validFilePaths merged.1))
    let pr := processEntries fs1 merged.1
    (pr.1, some
      { totalFetched := merged.2
        uniquePaths := merged.1.length
        updated := pr.2.count .updated
        skipped := pr.2.count .skipped
        errors := pr.2.count .errored })

/--
The state of one merged entry after the write loop has handled it: either the
file at its normalized path holds content that trim-matches its URL (it was
written or already matched), or the file is absent/mismatched but its parent
directory is unavailable, so any write attempt for it errors without touching
the state.  Entries with an empty key or URL are unconstrained (they are
dropped before any filesystem access).
-/
def GoodEntry (fs : FS) (e : String × String) : Prop :=
  e.1 ≠ "" → e.2 ≠ "" →
    (∃ c, readFileOpt fs (joinPath MEDIA_PATH (normKey e.1)) = some c ∧
      jsTrim c = jsTrim e.2) ∨
    ((readFileOpt fs (joinPath MEDIA_PATH (normKey e.1)) = none ∨
      ∃ c, readFileOpt fs (joinPath MEDIA_PATH (normKey e.1)) = some c ∧
        jsTrim c ≠ jsTrim e.2) ∧
     dirAvailable fs (joinPath MEDIA_PATH (normKey e.1)) = false)

/--
No two distinct valid entries of the mapping normalize to the same relative
path (the hypothesis under which a second reconciliation run is a no-op).
-/
def distinctPaths (m : List (String × String)) : Prop :=
  m.Pairwise (fun a b => a.1 ≠ "" → a.2 ≠ "" → b.1 ≠ "" → b.2 ≠ "" →
    normKey a.1 ≠ normKey b.1)

instance decDistinctPaths (m : List (String × String)) :
    Decidable (distinctPaths m) := by
  unfold distinctPaths
  infer_instance

/--
Whether one settled fetch passes the `mapping && typeof mapping === 'object'`
check in `synchronize` and is therefore merged: only a fulfilled fetch whose
value is an object contributes to `allMappings`.
-/
def contributes (resp : SourceResponse) : Bool :=
  match fetchMapping resp with
  | .ok (.obj _) => true
  | _ => false

theorem lookupObj_map_overwrite (m : List (String × String)) (k v : String)
    (h : m.any (fun p => p.1 == k) = true) :
    lookupObj (m.map (fun p => if p.1 = k then (k, v) else p)) k = some v := by
  induction m with
  | nil => simp at h
  | cons p rest ih =>
      obtain ⟨pk, pv⟩ := p
      simp only [List.any_cons, Bool.or_eq_true, beq_iff_eq] at h
      simp only [List.map_cons]
      by_cases hp : pk = k
      · rw [if_pos hp]
        simp [lookupObj]
      · rw [if_neg hp]
        have hrest : rest.any (fun p => p.1 == k) = true := by
          rcases h with h | h
          · exact absurd h hp
          · exact h
        simp only [lookupObj]
        rw [if_neg hp]
        exact ih hrest

theorem lookupObj_append_last (m : List (String × String)) (k v : String)
    (h : m.any (fun p => p.1 == k) = false) :
    lookupObj (m ++ [(k, v)]) k = some v := by
  induction m with
  | nil => simp [lookupObj]
  | cons p rest ih =>
      obtain ⟨pk, pv⟩ := p
      simp only [List.any_cons, Bool.or_eq_false_iff] at h
      obtain ⟨hp, hrest⟩ := h
      have hp2 : pk ≠ k := by simpa using hp
      simp only [List.cons_append, lookupObj]
      rw [if_neg hp2]
      exact ih hrest

theorem lookupObj_objSet_self (m : List (String × String)) (k v : String) :
    lookupObj (objSet m k v) k = some v := by
  unfold objSet
  split
  · exact lookupObj_map_overwrite m k v (by assumption)
  · rename_i h
    exact lookupObj_append_last m k v (Bool.eq_false_iff.mpr h)

theorem lookupObj_map_other (m : List (String × String)) (k v q : String)
    (hq : q ≠ k) :
    lookupObj (m.map (fun p => if p.1 = k then (k, v) else p)) q =
      lookupObj m q := by
  have hkq : k ≠ q := fun hkqe => hq hkqe.symm
  induction m with
  | nil => simp [lookupObj]
  | cons p rest ih =>
      obtain ⟨pk, pv⟩ := p
      simp only [List.map_cons]
      by_cases hp : pk = k
      · rw [if_pos hp]
        have hpq : pk ≠ q := by rw [hp]; exact hkq
        simp only [lookupObj]
        rw [if_neg hkq, if_neg hpq]
        exact ih
      · rw [if_neg hp]
        by_cases hpq : pk = q
        · simp only [lookupObj]
          rw [if_pos hpq, if_pos hpq]
        · simp only [lookupObj]
          rw [if_neg hpq, if_neg hpq]
          exact ih

theorem lookupObj_append_other (m : List (String × String)) (k v q : String)
    (hq : q ≠ k) : lookupObj (m ++ [(k, v)]) q = lookupObj m q := by
  have hkq : k ≠ q := fun hkqe => hq hkqe.symm
  induction m with
  | nil =>
      simp only [List.nil_append, lookupObj]
      rw [if_neg hkq]
  | cons p rest ih =>
      obtain ⟨pk, pv⟩ := p
      simp only [List.cons_append, lookupObj]
      by_cases hpq : pk = q
      · rw [if_pos hpq, if_pos hpq]
      · rw [if_neg hpq, if_neg hpq]
        exact ih

theorem lookupObj_objSet_other (m : List (String × String)) (k v q : String)
    (hq : q ≠ k) : lookupObj (objSet m k v) q = lookupObj m q := by
  unfold objSet
  split
  · exact lookupObj_map_other m k v q hq
  · exact lookupObj_append_other m k v q hq

theorem lookupObj_objAssign (t s : List (String × String)) (k : String) :
    lookupObj (objAssign t s) k =
      match lookupLast s k with
      | some v => some v
      | none => lookupObj t k := by
  induction s generalizing t with
  | nil => simp [objAssign, lookupLast]
  | cons p rest ih =>
      obtain ⟨k0, v0⟩ := p
      have step : objAssign t ((k0, v0) :: rest) =
          objAssign (objSet t k0 v0) rest := by
        simp [objAssign, List.foldl_cons]
      rw [step, ih]
      cases hrest : lookupLast rest k with
      | some v => simp [lookupLast, hrest]
      | none =>
          by_cases hk : k0 = k
          · subst hk
            simp [lookupLast, hrest, lookupObj_objSet_self]
          · simp [lookupLast, hrest, hk,
              lookupObj_objSet_other t k0 v0 k (Ne.symm hk)]

theorem readFileOpt_writeFileFS_self (fs : FS) (p c : String) :
    readFileOpt (writeFileFS fs p c) p = some c :=
  lookupObj_objSet_self fs.files p c

theorem readFileOpt_writeFileFS_other (fs : FS) (p c q : String)
    (hq : q ≠ p) : readFileOpt (writeFileFS fs p c) q = readFileOpt fs q :=
  lookupObj_objSet_other fs.files p c q hq

/--
C1: merging applies each source's raw mapping in the configured order,
inserting or overwriting keys in the accumulating result, so for a duplicate
key the later source's value wins: whenever the second source's mapping binds
`k` (taking its last binding), the merge of `[A, B]` maps `k` to that value.
-/
theorem claim1_merge_override (A B : List (String × String)) (k v : String)
    (h : lookupLast B k = some v) :
    lookupObj (mergeSources [Except.ok (Js.obj A), Except.ok (Js.obj B)]).1 k
      = some v := by
  rw [show (mergeSources [Except.ok (Js.obj A), Except.ok (Js.obj B)]).1 =
      objAssign (objAssign [] A) B from rfl]
  rw [lookupObj_objAssign, h]

theorem claim1_witness :
    lookupLast [("x.strm", "u2")] "x.strm" = some "u2" ∧
    lookupObj (mergeSources [Except.ok (Js.obj [("x.strm", "u1")]),
      Except.ok (Js.obj [("x.strm", "u2")])]).1 "x.strm" = some "u2" :=
  ⟨by decide, claim1_merge_override [("x.strm", "u1")] [("x.strm", "u2")]
    "x.strm" "u2" (by decide)⟩

/--
C2: `writeStrmFile` compares the trimmed existing content with the trimmed
target URL; when the file is present and the trimmed values agree it performs
no write and returns false (Skipped), and when the file is absent or the
trimmed values differ (and the parent directory exists, so the write
primitive succeeds) it overwrites the file with exactly the URL as its whole
content and returns true (Updated).
-/
theorem claim2_write_on_change (fs : FS) (p url : String) :
    (∀ c, readFileOpt fs (joinPath MEDIA_PATH p) = some c →
      jsTrim c = jsTrim url → writeStrmFile fs p url = .ok (fs, false)) ∧
    (dirAvailable fs (joinPath MEDIA_PATH p) = true →
      (readFileOpt fs (joinPath MEDIA_PATH p) = none ∨
        ∃ c, readFileOpt fs (joinPath MEDIA_PATH p) = some c ∧
          jsTrim c ≠ jsTrim url) →
      writeStrmFile fs p url =
        .ok (writeFileFS fs (joinPath MEDIA_PATH p) url, true) ∧
      readFileOpt (writeFileFS fs (joinPath MEDIA_PATH p) url)
        (joinPath MEDIA_PATH p) = some url) := by
  constructor
  · intro c hc htrim
    simp only [writeStrmFile, hc]
    rw [if_neg (not_not_intro htrim)]
  · intro hdir hcase
    refine ⟨?_, readFileOpt_writeFileFS_self fs (joinPath MEDIA_PATH p) url⟩
    rcases hcase with hnone | ⟨c, hc, hne⟩
    · simp only [writeStrmFile, hnone]
      rw [if_pos hdir]
    · simp only [writeStrmFile, hc]
      rw [if_pos hne, if_pos hdir]

theorem claim2_witness :
    writeStrmFile ⟨[(joinPath MEDIA_PATH "a.strm", "u\n")], [], []⟩
      "a.strm" "u" =
      .ok (⟨[(joinPath MEDIA_PATH "a.strm", "u\n")], [], []⟩, false) ∧
    writeStrmFile (⟨[], [], []⟩ : FS) "b.strm" "u2" =
      .ok (writeFileFS ⟨[], [], []⟩ (joinPath MEDIA_PATH "b.strm") "u2",
        true) ∧
    readFileOpt (writeFileFS ⟨[], [], []⟩ (joinPath MEDIA_PATH "b.strm") "u2")
      (joinPath MEDIA_PATH "b.strm") = some "u2" :=
  ⟨(claim2_write_on_change ⟨[(joinPath MEDIA_PATH "a.strm", "u\n")], [], []⟩
      "a.strm" "u").1 "u\n" (by decide) (by decide),
   ((claim2_write_on_change ⟨[], [], []⟩ "b.strm" "u2").2 (by decide)
      (Or.inl (by decide))).1,
   ((claim2_write_on_change ⟨[], [], []⟩ "b.strm" "u2").2 (by decide)
      (Or.inl (by decide))).2⟩

/--
C4: a key already ending in `.strm` is used unchanged as the relative file
path, any other key gets `.strm` appended; in particular
`"movies/Foo (2023)"` becomes `movies/Foo (2023).strm` and
`"shows/Bar.strm"` stays unchanged.
-/
theorem claim4_suffix_normalization (k : String) :
    (endsWithJS k ".strm" = true → normKey k = k) ∧
    (endsWithJS k ".strm" = false → normKey k = k ++ ".strm") ∧
    normKey "movies/Foo (2023)" = "movies/Foo (2023).strm" ∧
    normKey "shows/Bar.strm" = "shows/Bar.strm" := by
  refine ⟨?_, ?_, by decide, by decide⟩
  · intro h; simp [normKey, h]
  · intro h; simp [normKey, h]

theorem claim4_witness :
    normKey "shows/Bar.strm" = "shows/Bar.strm" ∧
    normKey "movies/Foo (2023)" = "movies/Foo (2023)" ++ ".strm" :=
  ⟨(claim4_suffix_normalization "shows/Bar.strm").1 (by decide),
   (claim4_suffix_normalization "movies/Foo (2023)").2.1 (by decide)⟩

theorem foldl_mergeStep_errors (results : List (Except FetchError Js))
    (h : ∀ r ∈ results, ∃ e, r = .error e) :
    ∀ acc, results.foldl mergeStep acc = acc := by
  induction results with
  | nil => intro acc; rfl
  | cons r rs ih =>
      intro acc
      obtain ⟨e, rfl⟩ := h r (List.mem_cons_self r rs)
      simp only [List.foldl_cons]
      exact ih (fun x hx => h x (List.mem_cons_of_mem _ hx)) acc

/--
C5 counterexample: when every source fails, `synchronize` returns before the
summary phase, so the run produces no report at all (`none`) — not a report
with zero fetched/updated/skipped/errored counts — although it is indeed a
no-op on the filesystem and raises no error.
-/
theorem claim5_counterexample :
    synchronize ⟨[], [], []⟩
      [SourceResponse.transportFailure,
       SourceResponse.response 500 (BodyParse.value (Js.obj [("k", "u")]))] =
      (⟨[], [], []⟩, none) := by decide

/--
C5 amended: if every source fails to fetch, the run terminates early as a
no-op — the filesystem is untouched (no directories created, no files read or
written), no error is raised to the caller, and no report is produced (the
summary with its counts is skipped by the early return).
-/
theorem claim5_empty_merge_amended (fs : FS)
    (responses : List SourceResponse)
    (h : ∀ resp ∈ responses, ∃ e, fetchMapping resp = .error e) :
    synchronize fs responses = (fs, none) := by
  have hm : mergeSources (responses.map fetchMapping) = ([], 0) := by
    apply foldl_mergeStep_errors
    intro r hr
    obtain ⟨resp, hresp, rfl⟩ := List.mem_map.mp hr
    exact h resp hresp
  simp only [synchronize, hm]
  rfl

theorem claim5_witness :
    synchronize ⟨[], [], []⟩
      [SourceResponse.transportFailure,
       SourceResponse.response 404 BodyParse.malformed] =
      (⟨[], [], []⟩, none) :=
  claim5_empty_merge_amended ⟨[], [], []⟩ _ (by
    intro resp hresp
    simp only [List.mem_cons, List.not_mem_nil, or_false] at hresp
    rcases hresp with rfl | rfl
    · exact ⟨FetchError.requestFailed, rfl⟩
    · exact ⟨FetchError.httpStatus 404, rfl⟩)

/--
C6 counterexample: an entry with an empty key is dropped with a warning but
recorded in no count of the report: the run on a mapping holding only
`"" → "u1"` ends with updated = skipped = errors = 0 (and no file written),
whereas the claim says the entry is recorded as a skipped-with-warning
outcome in the run's counts.
-/
theorem claim6_counterexample :
    synchronize ⟨[], [], []⟩
      [SourceResponse.response 200 (BodyParse.value (Js.obj [("", "u1")]))] =
      (⟨[], [], []⟩, some ⟨1, 1, 0, 0, 0⟩) := by decide

/--
C6 amended: a merged item whose key or URL is empty is rejected: the entry is
dropped (no file is written for it, the state is unchanged) and the run
continues, but the drop is only warned about — it is counted in none of the
run's outcome counts (updated, skipped and errored all ignore it).
-/
theorem claim6_invalid_dropped_amended (fs : FS) (k v : String)
    (os : List Outcome) (h : k = "" ∨ v = "") :
    processEntry fs k v = (fs, Outcome.dropped) ∧
    (Outcome.dropped :: os).count Outcome.updated =
      os.count Outcome.updated ∧
    (Outcome.dropped :: os).count Outcome.skipped =
      os.count Outcome.skipped ∧
    (Outcome.dropped :: os).count Outcome.errored =
      os.count Outcome.errored := by
  refine ⟨?_, ?_, ?_, ?_⟩
  · unfold processEntry
    rw [if_pos h]
  · simp [List.count_cons]
  · simp [List.count_cons]
  · simp [List.count_cons]

theorem claim6_witness :
    processEntry ⟨[], [], []⟩ "" "u1" = (⟨[], [], []⟩, Outcome.dropped) ∧
    (Outcome.dropped :: [Outcome.skipped]).count Outcome.updated =
      [Outcome.skipped].count Outcome.updated ∧
    (Outcome.dropped :: [Outcome.skipped]).count Outcome.skipped =
      [Outcome.skipped].count Outcome.skipped ∧
    (Outcome.dropped :: [Outcome.skipped]).count Outcome.errored =
      [Outcome.skipped].count Outcome.errored :=
  claim6_invalid_dropped_amended ⟨[], [], []⟩ "" "u1" [Outcome.skipped]
    (Or.inl rfl)

/--
C8 counterexample: a 2xx response whose body is well-formed JSON but not an
object (e.g. `42`) is resolved by `fetchMapping`, not surfaced as an error —
only the coordinator's format check later discards it with a warning.
-/
theorem claim8_counterexample :
    fetchMapping (SourceResponse.response 200 (BodyParse.value Js.prim)) =
      Except.ok Js.prim := rfl

/--
C8 amended: a non-2xx status, a transport failure, and a JSON body whose
parsing throws (malformed text, or `null`, for which `Object.keys` throws)
are each surfaced by `fetchMapping` as errors with distinct reasons; a
well-formed non-object body, however, is resolved successfully and only
dropped by the coordinator's format check; and no per-source error escapes
the merge loop — the merge step absorbs failed fetches and non-object values
without contributing anything.
-/
theorem claim8_fetch_errors_amended (s s2 : Nat) (b : BodyParse)
    (hs : s < 200 ∨ 300 ≤ s) (h1 : 200 ≤ s2) (h2 : s2 < 300)
    (acc : List (String × String) × Nat) (e : FetchError) :
    fetchMapping SourceResponse.transportFailure =
      .error FetchError.requestFailed ∧
    fetchMapping (SourceResponse.response s b) =
      .error (FetchError.httpStatus s) ∧
    fetchMapping (SourceResponse.response s2 BodyParse.malformed) =
      .error FetchError.parseFailed ∧
    fetchMapping (SourceResponse.response s2 BodyParse.nullValue) =
      .error FetchError.parseFailed ∧
    fetchMapping (SourceResponse.response s2 (BodyParse.value Js.prim)) =
      .ok Js.prim ∧
    FetchError.requestFailed ≠ FetchError.parseFailed ∧
    FetchError.httpStatus s ≠ FetchError.parseFailed ∧
    FetchError.httpStatus s ≠ FetchError.requestFailed ∧
    mergeStep acc (.error e) = acc ∧
    mergeStep acc (.ok Js.prim) = acc := by
  have hnot : ¬(s2 < 200 ∨ 300 ≤ s2) := by omega
  refine ⟨rfl, ?_, ?_, ?_, ?_, by simp, by simp, by simp, rfl, rfl⟩
  · simp only [fetchMapping]
    rw [if_pos hs]
  · simp only [fetchMapping]
    rw [if_neg hnot]
  · simp only [fetchMapping]
    rw [if_neg hnot]
  · simp only [fetchMapping]
    rw [if_neg hnot]

theorem claim8_witness :
    fetchMapping SourceResponse.transportFailure =
      .error FetchError.requestFailed ∧
    fetchMapping (SourceResponse.response 500 BodyParse.malformed) =
      .error (FetchError.httpStatus 500) ∧
    fetchMapping (SourceResponse.response 200 BodyParse.malformed) =
      .error FetchError.parseFailed ∧
    fetchMapping (SourceResponse.response 200 BodyParse.nullValue) =
      .error FetchError.parseFailed ∧
    fetchMapping (SourceResponse.response 200 (BodyParse.value Js.prim)) =
      .ok Js.prim ∧
    FetchError.requestFailed ≠ FetchError.parseFailed ∧
    FetchError.httpStatus 500 ≠ FetchError.parseFailed ∧
    FetchError.httpStatus 500 ≠ FetchError.requestFailed ∧
    mergeStep ([], 0) (.error FetchError.parseFailed) = ([], 0) ∧
    mergeStep ([], 0) (.ok Js.prim) = ([], 0) :=
  claim8_fetch_errors_amended 500 200 BodyParse.malformed
    (Or.inr (by decide)) (by decide) (by decide) ([], 0)
    FetchError.parseFailed

theorem foldl_mergeStep_filter (responses : List SourceResponse) :
    ∀ acc, (responses.map fetchMapping).foldl mergeStep acc =
      ((responses.filter contributes).map fetchMapping).foldl mergeStep acc := by
  induction responses with
  | nil => intro acc; rfl
  | cons r rs ih =>
      intro acc
      by_cases hc : contributes r
      · simp only [List.map_cons, List.foldl_cons, List.filter_cons, hc,
          if_true]
        exact ih _
      · have hcf : contributes r = false := Bool.eq_false_iff.mpr hc
        have hstep : mergeStep acc (fetchMapping r) = acc := by
          unfold contributes at hcf
          cases hfm : fetchMapping r with
          | error e => rfl
          | ok j =>
              cases j with
              | obj m =>
                  rw [hfm] at hcf
                  simp at hcf
              | prim => rfl
        simp only [List.map_cons, List.foldl_cons, List.filter_cons, hcf,
          Bool.false_eq_true, if_false, hstep]
        exact ih acc

/--
C9: a failed source contributes nothing to the merge — a run behaves exactly
like the run on the successful (object-yielding) sources only — and whenever
the merged mapping is nonempty the run completes with a report rather than a
thrown failure, so the surviving sources' entries are still normalized,
reconciled and counted.
-/
theorem claim9_failed_source_isolation (fs : FS)
    (responses : List SourceResponse)
    (h : (mergeSources (responses.map fetchMapping)).1 ≠ []) :
    synchronize fs responses =
      synchronize fs (responses.filter contributes) ∧
    (synchronize fs responses).2.isSome = true := by
  have hm : mergeSources (responses.map fetchMapping) =
      mergeSources ((responses.filter contributes).map fetchMapping) :=
    foldl_mergeStep_filter responses ([], 0)
  have hlen : ¬(mergeSources (responses.map fetchMapping)).1.length = 0 := by
    intro hl
    exact h (List.eq_nil_of_length_eq_zero hl)
  constructor
  · simp only [synchronize]
    rw [hm]
  · simp only [synchronize]
    rw [if_neg hlen]
    rfl

theorem claim9_witness :
    synchronize ⟨[], [], []⟩
        [SourceResponse.response 200 (BodyParse.value (Js.obj [("a", "u")])),
         SourceResponse.transportFailure] =
      synchronize ⟨[], [], []⟩
        ([SourceResponse.response 200 (BodyParse.value (Js.obj [("a", "u")])),
          SourceResponse.transportFailure].filter contributes) ∧
    (synchronize ⟨[], [], []⟩
        [SourceResponse.response 200 (BodyParse.value (Js.obj [("a", "u")])),
         SourceResponse.transportFailure]).2.isSome = true :=
  claim9_failed_source_isolation ⟨[], [], []⟩ _ (by decide)

theorem joinPath_left_cancel (s a b : String)
    (h : joinPath s a = joinPath s b) : a = b := by
  unfold joinPath at h
  have hd : (s ++ "/" ++ a).data = (s ++ "/" ++ b).data :=
    congrArg String.data h
  simp only [String.data_append] at hd
  exact congrArg String.mk (List.append_cancel_left hd)

theorem writeStrmFile_spec_cases (fs : FS) (p u : String) :
    (∃ c, readFileOpt fs (joinPath MEDIA_PATH p) = some c ∧
      jsTrim c = jsTrim u ∧ writeStrmFile fs p u = .ok (fs, false)) ∨
    ((readFileOpt fs (joinPath MEDIA_PATH p) = none ∨
      ∃ c, readFileOpt fs (joinPath MEDIA_PATH p) = some c ∧
        jsTrim c ≠ jsTrim u) ∧
     dirAvailable fs (joinPath MEDIA_PATH p) = true ∧
     writeStrmFile fs p u =
       .ok (writeFileFS fs (joinPath MEDIA_PATH p) u, true)) ∨
    ((readFileOpt fs (joinPath MEDIA_PATH p) = none ∨
      ∃ c, readFileOpt fs (joinPath MEDIA_PATH p) = some c ∧
        jsTrim c ≠ jsTrim u) ∧
     dirAvailable fs (joinPath MEDIA_PATH p) = false ∧
     writeStrmFile fs p u = .error .ioError) := by
  cases hr : readFileOpt fs (joinPath MEDIA_PATH p) with
  | some c =>
      by_cases ht : jsTrim c ≠ jsTrim u
      · cases hd : dirAvailable fs (joinPath MEDIA_PATH p) with
        | true =>
            refine Or.inr (Or.inl ⟨Or.inr ⟨c, rfl, ht⟩, rfl, ?_⟩)
            simp only [writeStrmFile, hr]
            rw [if_pos ht, if_pos hd]
        | false =>
            refine Or.inr (Or.inr ⟨Or.inr ⟨c, rfl, ht⟩, rfl, ?_⟩)
            simp only [writeStrmFile, hr]
            rw [if_pos ht, if_neg (by simp [hd])]
      · refine Or.inl ⟨c, rfl, not_not.mp ht, ?_⟩
        simp only [writeStrmFile, hr]
        rw [if_neg ht]
  | none =>
      cases hd : dirAvailable fs (joinPath MEDIA_PATH p) with
      | true =>
          refine Or.inr (Or.inl ⟨Or.inl rfl, rfl, ?_⟩)
          simp only [writeStrmFile, hr]
          rw [if_pos hd]
      | false =>
          refine Or.inr (Or.inr ⟨Or.inl rfl, rfl, ?_⟩)
          simp only [writeStrmFile, hr]
          rw [if_neg (by simp [hd])]

theorem processEntry_valid_eq (fs : FS) (k v : String)
    (hk : k ≠ "") (hv : v ≠ "") :
    processEntry fs k v =
      match writeStrmFile fs (normKey k) v with
      | .ok (fs1, true) => (fs1, Outcome.updated)
      | .ok (fs1, false) => (fs1, Outcome.skipped)
      | .error _ => (fs, Outcome.errored) := by
  unfold processEntry
  rw [if_neg (by simp [hk, hv])]

theorem processEntry_dirs (fs : FS) (k v : String) :
    (processEntry fs k v).1.dirs = fs.dirs ∧
    (processEntry fs k v).1.failDirs = fs.failDirs := by
  by_cases hk : k = "" ∨ v = ""
  · unfold processEntry
    rw [if_pos hk]
    exact ⟨rfl, rfl⟩
  · have hk1 : k ≠ "" := fun hh => hk (Or.inl hh)
    have hv1 : v ≠ "" := fun hh => hk (Or.inr hh)
    rw [processEntry_valid_eq fs k v hk1 hv1]
    rcases writeStrmFile_spec_cases fs (normKey k) v with
      ⟨c, _, _, hw⟩ | ⟨_, _, hw⟩ | ⟨_, _, hw⟩
    · rw [hw]; exact ⟨rfl, rfl⟩
    · rw [hw]; exact ⟨rfl, rfl⟩
    · rw [hw]; exact ⟨rfl, rfl⟩

theorem processEntries_dirs (m : List (String × String)) : ∀ fs : FS,
    (processEntries fs m).1.dirs = fs.dirs ∧
    (processEntries fs m).1.failDirs = fs.failDirs := by
  induction m with
  | nil => intro fs; exact ⟨rfl, rfl⟩
  | cons e rest ih =>
      intro fs
      obtain ⟨k, v⟩ := e
      have h1 := processEntry_dirs fs k v
      have h2 := ih (processEntry fs k v).1
      exact ⟨h2.1.trans h1.1, h2.2.trans h1.2⟩

theorem processEntry_files_frame (fs : FS) (k v q : String)
    (h : ¬(k = "" ∨ v = "") → joinPath MEDIA_PATH (normKey k) ≠ q) :
    readFileOpt (processEntry fs k v).1 q = readFileOpt fs q := by
  by_cases hk : k = "" ∨ v = ""
  · unfold processEntry
    rw [if_pos hk]
  · have hne := h hk
    have hk1 : k ≠ "" := fun hh => hk (Or.inl hh)
    have hv1 : v ≠ "" := fun hh => hk (Or.inr hh)
    rw [processEntry_valid_eq fs k v hk1 hv1]
    rcases writeStrmFile_spec_cases fs (normKey k) v with
      ⟨c, _, _, hw⟩ | ⟨_, _, hw⟩ | ⟨_, _, hw⟩
    · rw [hw]
    · rw [hw]
      exact readFileOpt_writeFileFS_other fs (joinPath MEDIA_PATH (normKey k))
        v q (Ne.symm hne)
    · rw [hw]

theorem processEntries_files_frame (m : List (String × String)) (q : String)
    (h : ∀ e ∈ m, ¬(e.1 = "" ∨ e.2 = "") →
      joinPath MEDIA_PATH (normKey e.1) ≠ q) : ∀ fs : FS,
    readFileOpt (processEntries fs m).1 q = readFileOpt fs q := by
  induction m with
  | nil => intro fs; rfl
  | cons e rest ih =>
      intro fs
      obtain ⟨k, v⟩ := e
      have hstep := processEntry_files_frame fs k v q
        (h (k, v) (List.mem_cons_self _ _))
      have hrest := ih (fun x hx => h x (List.mem_cons_of_mem _ hx))
        (processEntry fs k v).1
      exact hrest.trans hstep

theorem goodEntry_transfer (fs fs2 : FS) (e : String × String)
    (hfile : readFileOpt fs2 (joinPath MEDIA_PATH (normKey e.1)) =
      readFileOpt fs (joinPath MEDIA_PATH (normKey e.1)))
    (hdirs : fs2.dirs = fs.dirs) (hg : GoodEntry fs e) : GoodEntry fs2 e := by
  intro hk hv
  have hdir : dirAvailable fs2 (joinPath MEDIA_PATH (normKey e.1)) =
      dirAvailable fs (joinPath MEDIA_PATH (normKey e.1)) := by
    unfold dirAvailable
    rw [hdirs]
  rcases hg hk hv with ⟨c, hc, ht⟩ | ⟨hcase, hdf⟩
  · exact Or.inl ⟨c, by rw [hfile]; exact hc, ht⟩
  · refine Or.inr ⟨?_, by rw [hdir]; exact hdf⟩
    rcases hcase with hnone | ⟨c, hc, ht⟩
    · exact Or.inl (by rw [hfile]; exact hnone)
    · exact Or.inr ⟨c, by rw [hfile]; exact hc, ht⟩

theorem processEntry_establishes_self (fs : FS) (k v : String) :
    GoodEntry (processEntry fs k v).1 (k, v) := by
  intro hk hv
  rw [processEntry_valid_eq fs k v hk hv]
  rcases writeStrmFile_spec_cases fs (normKey k) v with
    ⟨c, hc, ht, hw⟩ | ⟨hcase, hd, hw⟩ | ⟨hcase, hd, hw⟩
  · rw [hw]
    exact Or.inl ⟨c, hc, ht⟩
  · rw [hw]
    exact Or.inl ⟨v, readFileOpt_writeFileFS_self fs _ v, rfl⟩
  · rw [hw]
    exact Or.inr ⟨hcase, hd⟩

theorem processEntry_good_fix (fs : FS) (k v : String)
    (hg : GoodEntry fs (k, v)) :
    (processEntry fs k v).1 = fs ∧
    (processEntry fs k v).2 ≠ Outcome.updated := by
  by_cases hk : k = "" ∨ v = ""
  · unfold processEntry
    rw [if_pos hk]
    exact ⟨rfl, fun hcon => Outcome.noConfusion hcon⟩
  · have hk1 : k ≠ "" := fun hh => hk (Or.inl hh)
    have hv1 : v ≠ "" := fun hh => hk (Or.inr hh)
    rcases hg hk1 hv1 with ⟨c, hc, ht⟩ | ⟨hcase, hdf⟩
    · have hw : writeStrmFile fs (normKey k) v = .ok (fs, false) := by
        simp only [writeStrmFile, hc]
        rw [if_neg (not_not_intro ht)]
      rw [processEntry_valid_eq fs k v hk1 hv1, hw]
      exact ⟨rfl, fun hcon => Outcome.noConfusion hcon⟩
    · have hw : writeStrmFile fs (normKey k) v = .error .ioError := by
        rcases hcase with hnone | ⟨c, hc, ht⟩
        · simp only [writeStrmFile, hnone]
          rw [if_neg (by simp [hdf])]
        · simp only [writeStrmFile, hc]
          rw [if_pos ht, if_neg (by simp [hdf])]
      rw [processEntry_valid_eq fs k v hk1 hv1, hw]
      exact ⟨rfl, fun hcon => Outcome.noConfusion hcon⟩

theorem processEntries_good_fix (m : List (String × String)) (fs : FS)
    (h : ∀ e ∈ m, GoodEntry fs e) :
    (processEntries fs m).1 = fs ∧
    (processEntries fs m).2.count Outcome.updated = 0 := by
  induction m with
  | nil => exact ⟨rfl, rfl⟩
  | cons e rest ih =>
      obtain ⟨k, v⟩ := e
      have hfix := processEntry_good_fix fs k v (h (k, v) (List.mem_cons_self _ _))
      have ihh := ih (fun x hx => h x (List.mem_cons_of_mem _ hx))
      constructor
      · show (processEntries (processEntry fs k v).1 rest).1 = fs
        rw [hfix.1]
        exact ihh.1
      · show ((processEntry fs k v).2 ::
            (processEntries (processEntry fs k v).1 rest).2).count
            Outcome.updated = 0
        rw [List.count_cons_of_ne (Ne.symm hfix.2), hfix.1]
        exact ihh.2

theorem processEntries_establish (m : List (String × String))
    (hdist : distinctPaths m) : ∀ fs : FS,
    ∀ e ∈ m, GoodEntry (processEntries fs m).1 e := by
  induction m with
  | nil =>
      intro fs e he
      exact absurd he (List.not_mem_nil e)
  | cons e0 rest ih =>
      intro fs e he
      obtain ⟨k0, v0⟩ := e0
      have hdist2 : distinctPaths rest := (List.pairwise_cons.mp hdist).2
      have hrel := (List.pairwise_cons.mp hdist).1
      rcases List.mem_cons.mp he with rfl | hmem
      · by_cases hk : k0 = "" ∨ v0 = ""
        · intro hk1 hv1
          rcases hk with hh | hh
          · exact absurd hh hk1
          · exact absurd hh hv1
        · have hk1 : k0 ≠ "" := fun hh => hk (Or.inl hh)
          have hv1 : v0 ≠ "" := fun hh => hk (Or.inr hh)
          have hself := processEntry_establishes_self fs k0 v0
          have hframe : readFileOpt
              (processEntries (processEntry fs k0 v0).1 rest).1
              (joinPath MEDIA_PATH (normKey k0)) =
              readFileOpt (processEntry fs k0 v0).1
              (joinPath MEDIA_PATH (normKey k0)) := by
            apply processEntries_files_frame
            intro x hx hxvalid
            have hx1 : x.1 ≠ "" := fun hh => hxvalid (Or.inl hh)
            have hx2 : x.2 ≠ "" := fun hh => hxvalid (Or.inr hh)
            have hnk := hrel x hx hk1 hv1 hx1 hx2
            intro hcon
            exact hnk (joinPath_left_cancel MEDIA_PATH _ _ hcon).symm
          have hdirs : (processEntries (processEntry fs k0 v0).1 rest).1.dirs =
              (processEntry fs k0 v0).1.dirs :=
            (processEntries_dirs rest (processEntry fs k0 v0).1).1
          exact goodEntry_transfer (processEntry fs k0 v0).1 _ (k0, v0)
            hframe hdirs hself
      · exact ih hdist2 (processEntry fs k0 v0).1 e hmem

theorem createDirStep_keeps (fs : FS) (d : String) :
    (createDirStep fs d).files = fs.files ∧
    (createDirStep fs d).failDirs = fs.failDirs := by
  unfold createDirStep
  split
  · exact ⟨rfl, rfl⟩
  · split
    · exact ⟨rfl, rfl⟩
    · exact ⟨rfl, rfl⟩

theorem createDirStep_dirs_mono (fs : FS) (d x : String) (hx : x ∈ fs.dirs) :
    x ∈ (createDirStep fs d).dirs := by
  unfold createDirStep
  split
  · exact hx
  · split
    · exact hx
    · exact List.mem_append_left _ hx

theorem cad_keeps (ds : List String) : ∀ fs : FS,
    (createAllDirectories fs ds).files = fs.files ∧
    (createAllDirectories fs ds).failDirs = fs.failDirs := by
  induction ds with
  | nil => intro fs; exact ⟨rfl, rfl⟩
  | cons d rest ih =>
      intro fs
      have h1 := createDirStep_keeps fs d
      have h2 := ih (createDirStep fs d)
      exact ⟨h2.1.trans h1.1, h2.2.trans h1.2⟩

theorem cad_dirs_mono (ds : List String) : ∀ (fs : FS) (x : String),
    x ∈ fs.dirs → x ∈ (createAllDirectories fs ds).dirs := by
  induction ds with
  | nil => intro fs x hx; exact hx
  | cons d rest ih =>
      intro fs x hx
      exact ih (createDirStep fs d) x (createDirStep_dirs_mono fs d x hx)

theorem cad_mem_dirs (ds : List String) : ∀ (fs : FS) (d : String),
    d ∈ ds → d ∉ fs.failDirs → d ∈ (createAllDirectories fs ds).dirs := by
  induction ds with
  | nil =>
      intro fs d hd
      exact absurd hd (List.not_mem_nil d)
  | cons d0 rest ih =>
      intro fs d hd hnf
      rcases List.mem_cons.mp hd with rfl | hmem
      · apply cad_dirs_mono rest (createDirStep fs d)
        unfold createDirStep
        split
        · rename_i hcont
          simpa using hcont
        · split
          · rename_i hfail
            exact absurd (by simpa using hfail) hnf
          · exact List.mem_append_right _ (List.mem_singleton.mpr rfl)
      · apply ih (createDirStep fs d0) d hmem
        rw [(createDirStep_keeps fs d0).2]
        exact hnf

theorem cad_covers (ds : List String) : ∀ (fs : FS) (d : String), d ∈ ds →
    d ∈ (createAllDirectories fs ds).dirs ∨ d ∈ fs.failDirs := by
  induction ds with
  | nil =>
      intro fs d hd
      exact absurd hd (List.not_mem_nil d)
  | cons d0 rest ih =>
      intro fs d hd
      rcases List.mem_cons.mp hd with rfl | hmem
      · by_cases hnf : d ∈ fs.failDirs
        · exact Or.inr hnf
        · exact Or.inl (cad_mem_dirs (d :: rest) fs d
            (List.mem_cons_self _ _) hnf)
      · rcases ih (createDirStep fs d0) d hmem with h | h
        · exact Or.inl h
        · rw [(createDirStep_keeps fs d0).2] at h
          exact Or.inr h

theorem cad_fixed (ds : List String) : ∀ fs : FS,
    (∀ d ∈ ds, d ∈ fs.dirs ∨ d ∈ fs.failDirs) →
    createAllDirectories fs ds = fs := by
  induction ds with
  | nil => intro fs _; rfl
  | cons d0 rest ih =>
      intro fs h
      have hstep : createDirStep fs d0 = fs := by
        rcases h d0 (List.mem_cons_self _ _) with hd | hd
        · unfold createDirStep
          rw [if_pos (by simpa using hd)]
        · unfold createDirStep
          by_cases hc : fs.dirs.contains d0 = true
          · rw [if_pos hc]
          · rw [if_neg hc, if_pos (by simpa using hd)]
      show createAllDirectories (createDirStep fs d0) rest = fs
      rw [hstep]
      exact ih fs (fun d hd => h d (List.mem_cons_of_mem _ hd))

theorem cad_keeps_out (ds : List String) : ∀ (fs : FS) (x : String),
    x ∈ fs.failDirs → x ∉ fs.dirs →
    x ∉ (createAllDirectories fs ds).dirs := by
  induction ds with
  | nil => intro fs x _ hx; exact hx
  | cons d0 rest ih =>
      intro fs x hxf hxd
      apply ih (createDirStep fs d0) x
      · rw [(createDirStep_keeps fs d0).2]
        exact hxf
      · unfold createDirStep
        split
        · exact hxd
        · split
          · exact hxd
          · rename_i hnc hnf2
            intro hcon
            rcases List.mem_append.mp hcon with h | h
            · exact hxd h
            · have hx0 : x = d0 := List.mem_singleton.mp h
              subst hx0
              exact hnf2 (by simpa using hxf)

theorem processEntries_keep_none (m : List (String × String)) :
    ∀ (fs : FS) (P : String), dirAvailable fs P = false →
    readFileOpt fs P = none →
    readFileOpt (processEntries fs m).1 P = none := by
  induction m with
  | nil => intro fs P _ h; exact h
  | cons e rest ih =>
      intro fs P hdir hnone
      obtain ⟨k, v⟩ := e
      have hstep : readFileOpt (processEntry fs k v).1 P = none := by
        by_cases hk : k = "" ∨ v = ""
        · unfold processEntry
          rw [if_pos hk]
          exact hnone
        · have hk1 : k ≠ "" := fun hh => hk (Or.inl hh)
          have hv1 : v ≠ "" := fun hh => hk (Or.inr hh)
          by_cases hp : joinPath MEDIA_PATH (normKey k) = P
          · rw [processEntry_valid_eq fs k v hk1 hv1]
            rcases writeStrmFile_spec_cases fs (normKey k) v with
              ⟨c, hc, _, hw⟩ | ⟨_, hd, hw⟩ | ⟨_, _, hw⟩
            · rw [hp] at hc
              rw [hnone] at hc
              cases hc
            · rw [hp] at hd
              rw [hdir] at hd
              cases hd
            · rw [hw]
              exact hnone
          · rw [processEntry_files_frame fs k v P (fun _ => hp)]
            exact hnone
      have hdirstep : dirAvailable (processEntry fs k v).1 P = false := by
        unfold dirAvailable
        rw [(processEntry_dirs fs k v).1]
        exact hdir
      exact ih (processEntry fs k v).1 P hdirstep hstep

theorem processEntry_error_of (fs : FS) (k v : String)
    (hk : k ≠ "") (hv : v ≠ "")
    (hdir : dirAvailable fs (joinPath MEDIA_PATH (normKey k)) = false)
    (hnone : readFileOpt fs (joinPath MEDIA_PATH (normKey k)) = none) :
    processEntry fs k v = (fs, Outcome.errored) := by
  rw [processEntry_valid_eq fs k v hk hv]
  have hw : writeStrmFile fs (normKey k) v = .error .ioError := by
    simp only [writeStrmFile, hnone]
    rw [if_neg (by simp [hdir])]
  rw [hw]

theorem processEntries_length (m : List (String × String)) : ∀ fs : FS,
    (processEntries fs m).2.length = m.length := by
  induction m with
  | nil => intro fs; rfl
  | cons e rest ih =>
      intro fs
      obtain ⟨k, v⟩ := e
      show ((processEntry fs k v).2 ::
        (processEntries (processEntry fs k v).1 rest).2).length = rest.length + 1
      rw [List.length_cons, ih]

theorem processEntries_append (m1 m2 : List (String × String)) : ∀ fs : FS,
    processEntries fs (m1 ++ m2) =
      ((processEntries (processEntries fs m1).1 m2).1,
       (processEntries fs m1).2 ++
         (processEntries (processEntries fs m1).1 m2).2) := by
  induction m1 with
  | nil => intro fs; rfl
  | cons e rest ih =>
      intro fs
      obtain ⟨k, v⟩ := e
      show ((processEntries (processEntry fs k v).1 (rest ++ m2)).1,
          (processEntry fs k v).2 ::
            (processEntries (processEntry fs k v).1 (rest ++ m2)).2) = _
      rw [ih (processEntry fs k v).1]
      rfl

theorem synchronize_none (fs : FS) (responses : List SourceResponse)
    (h : (mergeSources (responses.map fetchMapping)).1.length = 0) :
    synchronize fs responses = (fs, none) := by
  simp only [synchronize]
  rw [if_pos h]

theorem synchronize_fst (fs : FS) (responses : List SourceResponse)
    (h : ¬(mergeSources (responses.map fetchMapping)).1.length = 0) :
    (synchronize fs responses).1 =
      (processEntries (createAllDirectories fs (collectAllDirectories
        (validFilePaths (mergeSources (responses.map fetchMapping)).1)))
        (mergeSources (responses.map fetchMapping)).1).1 := by
  simp only [synchronize]
  rw [if_neg h]

theorem synchronize_updated (fs : FS) (responses : List SourceResponse)
    (h : ¬(mergeSources (responses.map fetchMapping)).1.length = 0) :
    (synchronize fs responses).2.map Report.updated =
      some ((processEntries (createAllDirectories fs (collectAllDirectories
        (validFilePaths (mergeSources (responses.map fetchMapping)).1)))
        (mergeSources (responses.map fetchMapping)).1).2.count
          Outcome.updated) := by
  simp only [synchronize]
  rw [if_neg h]
  rfl

theorem sync_second_pass (M : List (String × String)) (ds : List String)
    (fs : FS) (hdist : distinctPaths M) :
    createAllDirectories (processEntries (createAllDirectories fs ds) M).1 ds =
      (processEntries (createAllDirectories fs ds) M).1 ∧
    (processEntries (processEntries (createAllDirectories fs ds) M).1 M).1 =
      (processEntries (createAllDirectories fs ds) M).1 ∧
    (processEntries (processEntries (createAllDirectories fs ds) M).1 M).2.count
      Outcome.updated = 0 := by
  have hdirsB := (processEntries_dirs M (createAllDirectories fs ds)).1
  have hfailB := (processEntries_dirs M (createAllDirectories fs ds)).2
  have hfailA := (cad_keeps ds fs).2
  have hcov : ∀ d ∈ ds,
      d ∈ (processEntries (createAllDirectories fs ds) M).1.dirs ∨
      d ∈ (processEntries (createAllDirectories fs ds) M).1.failDirs := by
    intro d hd
    rcases cad_covers ds fs d hd with h | h
    · exact Or.inl (by rw [hdirsB]; exact h)
    · exact Or.inr (by rw [hfailB, hfailA]; exact h)
  have hcad2 := cad_fixed ds _ hcov
  have hgood := processEntries_establish M hdist (createAllDirectories fs ds)
  have hfix := processEntries_good_fix M _ hgood
  exact ⟨hcad2, hfix.1, hfix.2⟩

/--
C3 counterexample: the mapping holding both keys `"Foo"` and `"Foo.strm"`
(both normalizing to the path `Foo.strm`) with different URLs makes the
second reconciliation run update twice again — full-pass idempotence fails
for colliding keys, although the remote mapping is unchanged and nothing
touched the filesystem between the runs.
-/
theorem claim3_counterexample :
    ((synchronize (synchronize ⟨[], [], []⟩
        [SourceResponse.response 200 (BodyParse.value
          (Js.obj [("Foo", "u1"), ("Foo.strm", "u2")]))]).1
        [SourceResponse.response 200 (BodyParse.value
          (Js.obj [("Foo", "u1"), ("Foo.strm", "u2")]))]).2.map
      Report.updated) = some 2 := by decide

/--
C3 amended: provided no two distinct valid keys of the merged mapping
normalize to the same path, a second reconciliation run with the same fetch
results is a no-op: the filesystem state is unchanged (zero file writes) and
the second run's report counts zero Updated outcomes — in particular, after a
successful `writeStrmFile` the immediately repeated call for the same path
and URL returns false and performs no write.
-/
theorem claim3_idempotent_amended (fs : FS) (responses : List SourceResponse)
    (hdist : distinctPaths (mergeSources (responses.map fetchMapping)).1) :
    (synchronize (synchronize fs responses).1 responses).1 =
      (synchronize fs responses).1 ∧
    ((synchronize (synchronize fs responses).1 responses).2.map
      Report.updated).getD 0 = 0 := by
  by_cases hlen : (mergeSources (responses.map fetchMapping)).1.length = 0
  · constructor
    · rw [synchronize_none fs responses hlen]
      show (synchronize fs responses).1 = fs
      rw [synchronize_none fs responses hlen]
    · rw [synchronize_none fs responses hlen]
      show ((synchronize fs responses).2.map Report.updated).getD 0 = 0
      rw [synchronize_none fs responses hlen]
      rfl
  · obtain ⟨hcad2, hfst2, hcnt⟩ := sync_second_pass
      (mergeSources (responses.map fetchMapping)).1
      (collectAllDirectories (validFilePaths
        (mergeSources (responses.map fetchMapping)).1)) fs hdist
    constructor
    · rw [synchronize_fst fs responses hlen, synchronize_fst _ responses hlen,
        hcad2]
      exact hfst2
    · rw [synchronize_fst fs responses hlen, synchronize_updated _ responses
        hlen, hcad2]
      simpa using hcnt

theorem claim3_witness :
    distinctPaths (mergeSources ([SourceResponse.response 200
      (BodyParse.value (Js.obj [("Foo", "u1"), ("Bar", "u2")]))].map
        fetchMapping)).1 ∧
    (synchronize (synchronize ⟨[], [], []⟩
        [SourceResponse.response 200 (BodyParse.value
          (Js.obj [("Foo", "u1"), ("Bar", "u2")]))]).1
        [SourceResponse.response 200 (BodyParse.value
          (Js.obj [("Foo", "u1"), ("Bar", "u2")]))]).1 =
      (synchronize ⟨[], [], []⟩
        [SourceResponse.response 200 (BodyParse.value
          (Js.obj [("Foo", "u1"), ("Bar", "u2")]))]).1 ∧
    ((synchronize (synchronize ⟨[], [], []⟩
        [SourceResponse.response 200 (BodyParse.value
          (Js.obj [("Foo", "u1"), ("Bar", "u2")]))]).1
        [SourceResponse.response 200 (BodyParse.value
          (Js.obj [("Foo", "u1"), ("Bar", "u2")]))]).2.map
      Report.updated).getD 0 = 0 :=
  ⟨by decide, claim3_idempotent_amended ⟨[], [], []⟩
    [SourceResponse.response 200 (BodyParse.value
      (Js.obj [("Foo", "u1"), ("Bar", "u2")]))] (by decide)⟩

/--
C7: directory planning is isolated from the write phase and failure-tolerant:
(1) a directory-creation failure for one directory does not prevent any other
listed directory from being created — every listed directory that is not
doomed to fail exists after the planning phase; (2) the run's final directory
set is exactly the one produced by the planning phase — the write phase never
creates a directory, so all creation completes before any write; (3) a valid
entry whose parent directory could not be created (it is neither the media
root nor creatable) is not silently dropped: its slot in the write loop's
outcome list is an Errored outcome.
-/
theorem claim7_directory_phase (fs : FS) (ds : List String) (d : String)
    (responses : List SourceResponse)
    (m1 m2 : List (String × String)) (k v : String)
    (hd : d ∈ ds) (hdf : d ∉ fs.failDirs)
    (hk : k ≠ "") (hv : v ≠ "")
    (hroot : dirname (joinPath MEDIA_PATH (normKey k)) ≠ MEDIA_PATH)
    (hfailP : dirname (joinPath MEDIA_PATH (normKey k)) ∈ fs.failDirs)
    (hnodirP : dirname (joinPath MEDIA_PATH (normKey k)) ∉ fs.dirs)
    (hnone : readFileOpt fs (joinPath MEDIA_PATH (normKey k)) = none) :
    d ∈ (createAllDirectories fs ds).dirs ∧
    (synchronize fs responses).1.dirs =
      (createAllDirectories fs (collectAllDirectories (validFilePaths
        (mergeSources (responses.map fetchMapping)).1))).dirs ∧
    (processEntries (createAllDirectories fs ds)
      (m1 ++ (k, v) :: m2)).2[m1.length]? = some Outcome.errored := by
  refine ⟨cad_mem_dirs ds fs d hd hdf, ?_, ?_⟩
  · by_cases hlen : (mergeSources (responses.map fetchMapping)).1.length = 0
    · rw [synchronize_none fs responses hlen,
        List.eq_nil_of_length_eq_zero hlen]
      rfl
    · rw [synchronize_fst fs responses hlen]
      exact (processEntries_dirs (mergeSources (responses.map fetchMapping)).1
        (createAllDirectories fs (collectAllDirectories (validFilePaths
          (mergeSources (responses.map fetchMapping)).1)))).1
  · have hPfail : dirAvailable (createAllDirectories fs ds)
        (joinPath MEDIA_PATH (normKey k)) = false := by
      unfold dirAvailable
      have h1 : (dirname (joinPath MEDIA_PATH (normKey k)) == MEDIA_PATH) =
          false := by simpa using hroot
      have hout := cad_keeps_out ds fs _ hfailP hnodirP
      have h2 : ((createAllDirectories fs ds).dirs.contains
          (dirname (joinPath MEDIA_PATH (normKey k)))) = false :=
        Bool.eq_false_iff.mpr (fun hc => hout (by simpa using hc))
      rw [h1, h2]
      rfl
    have hread : readFileOpt (createAllDirectories fs ds)
        (joinPath MEDIA_PATH (normKey k)) = none := by
      unfold readFileOpt
      rw [show (createAllDirectories fs ds).files = fs.files from
        (cad_keeps ds fs).1]
      exact hnone
    rw [processEntries_append m1 ((k, v) :: m2) (createAllDirectories fs ds)]
    have hmidnone : readFileOpt
        (processEntries (createAllDirectories fs ds) m1).1
        (joinPath MEDIA_PATH (normKey k)) = none :=
      processEntries_keep_none m1 _ _ hPfail hread
    have hmiddir : dirAvailable
        (processEntries (createAllDirectories fs ds) m1).1
        (joinPath MEDIA_PATH (normKey k)) = false := by
      unfold dirAvailable
      rw [(processEntries_dirs m1 (createAllDirectories fs ds)).1]
      exact hPfail
    have herr := processEntry_error_of _ k v hk hv hmiddir hmidnone
    have hcons : (processEntries
        (processEntries (createAllDirectories fs ds) m1).1 ((k, v) :: m2)).2 =
        Outcome.errored :: (processEntries
          (processEntries (createAllDirectories fs ds) m1).1 m2).2 := by
      show ((processEntry (processEntries (createAllDirectories fs ds) m1).1
          k v).2 :: (processEntries (processEntry
            (processEntries (createAllDirectories fs ds) m1).1 k v).1 m2).2) = _
      rw [herr]
    rw [show ((processEntries (processEntries (createAllDirectories fs ds)
        m1).1 ((k, v) :: m2)).1,
        (processEntries (createAllDirectories fs ds) m1).2 ++
          (processEntries (processEntries (createAllDirectories fs ds) m1).1
            ((k, v) :: m2)).2).2 =
        (processEntries (createAllDirectories fs ds) m1).2 ++
          (processEntries (processEntries (createAllDirectories fs ds) m1).1
            ((k, v) :: m2)).2 from rfl]
    rw [hcons]
    have hlen1 : (processEntries (createAllDirectories fs ds) m1).2.length =
        m1.length := processEntries_length m1 _
    rw [List.getElem?_append_right (le_of_eq hlen1), hlen1]
    simp

theorem claim7_witness :
    "/app/media/shows" ∈ (createAllDirectories
      ⟨[], [], ["/app/media/movies"]⟩
      ["/app/media/movies", "/app/media/shows"]).dirs ∧
    (synchronize ⟨[], [], ["/app/media/movies"]⟩
        [SourceResponse.response 200 (BodyParse.value
          (Js.obj [("x", "u")]))]).1.dirs =
      (createAllDirectories ⟨[], [], ["/app/media/movies"]⟩
        (collectAllDirectories (validFilePaths
          (mergeSources ([SourceResponse.response 200 (BodyParse.value
            (Js.obj [("x", "u")]))].map fetchMapping)).1))).dirs ∧
    (processEntries (createAllDirectories ⟨[], [], ["/app/media/movies"]⟩
      ["/app/media/movies", "/app/media/shows"])
      ([] ++ ("movies/Foo", "u") :: [])).2[List.length
        ([] : List (String × String))]? = some Outcome.errored :=
  claim7_directory_phase ⟨[], [], ["/app/media/movies"]⟩
    ["/app/media/movies", "/app/media/shows"] "/app/media/shows"
    [SourceResponse.response 200 (BodyParse.value (Js.obj [("x", "u")]))]
    [] [] "movies/Foo" "u"
    (by decide) (by decide) (by decide) (by decide)
    (by decide) (by decide) (by decide) (by decide)

theorem processEntry_avail (fs : FS) (k u : String) (hk : k ≠ "") (hu : u ≠ "")
    (hdir : dirAvailable fs (joinPath MEDIA_PATH (normKey k)) = true) :
    (∃ c, readFileOpt fs (joinPath MEDIA_PATH (normKey k)) = some c ∧
      jsTrim c = jsTrim u ∧ processEntry fs k u = (fs, Outcome.skipped)) ∨
    processEntry fs k u =
      (writeFileFS fs (joinPath MEDIA_PATH (normKey k)) u, Outcome.updated) := by
  rcases writeStrmFile_spec_cases fs (normKey k) u with
    ⟨c, hc, ht, hw⟩ | ⟨_, _, hw⟩ | ⟨_, hd, hw⟩
  · refine Or.inl ⟨c, hc, ht, ?_⟩
    rw [processEntry_valid_eq fs k u hk hu, hw]
  · refine Or.inr ?_
    rw [processEntry_valid_eq fs k u hk hu, hw]
  · rw [hdir] at hd
    cases hd

theorem processEntries_two (fs : FS) (k1 v1 k2 v2 : String) :
    processEntries fs [(k1, v1), (k2, v2)] =
      ((processEntry (processEntry fs k1 v1).1 k2 v2).1,
       [(processEntry fs k1 v1).2,
        (processEntry (processEntry fs k1 v1).1 k2 v2).2]) := rfl

/--
C10 counterexample: keys `"Foo"` and `"Foo.strm"` both normalize to
`Foo.strm` and are processed against that one file, each with its own counted
outcome (updated then skipped) — but the file's final content is the FIRST
entry's URL `"u2 "` (trailing blank), not the last-iterated entry's URL
`"u2"`: the last entry was skipped because the contents agree only after
trimming, so the claim's "final content is the last entry's target URL" fails.
-/
theorem claim10_counterexample :
    synchronize ⟨[], [], []⟩
      [SourceResponse.response 200 (BodyParse.value
        (Js.obj [("Foo", "u2 "), ("Foo.strm", "u2")]))] =
      (⟨[(joinPath MEDIA_PATH "Foo.strm", "u2 ")], [], []⟩,
       some ⟨2, 2, 1, 1, 0⟩) ∧
    ("u2 " : String) ≠ "u2" := by decide

/--
C10 amended: when two distinct valid keys normalize to the same path and that
path's parent directory is available, both entries are processed against the
single file and each receives its own counted outcome (updated or skipped, so
the outcome totals can exceed the number of distinct files touched); the
file's final content trim-matches the URL of the entry iterated last, and
equals it exactly whenever that last entry performed a write (if the last
entry was skipped, the earlier content — trim-equal to the last URL — remains
byte-for-byte).
-/
theorem claim10_collision_amended (fs : FS) (k1 k2 v1 v2 : String)
    (hk1 : k1 ≠ "") (hv1 : v1 ≠ "") (hk2 : k2 ≠ "") (hv2 : v2 ≠ "")
    (hcol : normKey k1 = normKey k2)
    (hdir : dirAvailable fs (joinPath MEDIA_PATH (normKey k2)) = true) :
    ((processEntries fs [(k1, v1), (k2, v2)]).2 =
        [Outcome.updated, Outcome.updated] ∨
     (processEntries fs [(k1, v1), (k2, v2)]).2 =
        [Outcome.updated, Outcome.skipped] ∨
     (processEntries fs [(k1, v1), (k2, v2)]).2 =
        [Outcome.skipped, Outcome.updated] ∨
     (processEntries fs [(k1, v1), (k2, v2)]).2 =
        [Outcome.skipped, Outcome.skipped]) ∧
    (readFileOpt (processEntries fs [(k1, v1), (k2, v2)]).1
      (joinPath MEDIA_PATH (normKey k2))).isSome = true ∧
    jsTrim ((readFileOpt (processEntries fs [(k1, v1), (k2, v2)]).1
      (joinPath MEDIA_PATH (normKey k2))).getD "") = jsTrim v2 ∧
    ((processEntries fs [(k1, v1), (k2, v2)]).2.getLast? =
        some Outcome.updated →
      readFileOpt (processEntries fs [(k1, v1), (k2, v2)]).1
        (joinPath MEDIA_PATH (normKey k2)) = some v2) := by
  have hP : joinPath MEDIA_PATH (normKey k1) =
      joinPath MEDIA_PATH (normKey k2) := by rw [hcol]
  have hdir1 : dirAvailable fs (joinPath MEDIA_PATH (normKey k1)) = true := by
    rw [hP]
    exact hdir
  rcases processEntry_avail fs k1 v1 hk1 hv1 hdir1 with ⟨c, hc, ht, he1⟩ | he1
  · rcases processEntry_avail fs k2 v2 hk2 hv2 hdir with
      ⟨c2, hc2, ht2, he2⟩ | he2
    · have hres : processEntries fs [(k1, v1), (k2, v2)] =
          (fs, [Outcome.skipped, Outcome.skipped]) := by
        simp only [processEntries_two, he1, he2]
      refine ⟨Or.inr (Or.inr (Or.inr (by rw [hres]))), ?_, ?_, ?_⟩
      · rw [hres]
        show (readFileOpt fs (joinPath MEDIA_PATH (normKey k2))).isSome = true
        rw [hc2]
        rfl
      · rw [hres]
        show jsTrim ((readFileOpt fs
          (joinPath MEDIA_PATH (normKey k2))).getD "") = jsTrim v2
        rw [hc2]
        exact ht2
      · rw [hres]
        intro hcon
        exact absurd (show [Outcome.skipped, Outcome.skipped].getLast? =
          some Outcome.updated from hcon) (by decide)
    · have hres : processEntries fs [(k1, v1), (k2, v2)] =
          (writeFileFS fs (joinPath MEDIA_PATH (normKey k2)) v2,
           [Outcome.skipped, Outcome.updated]) := by
        simp only [processEntries_two, he1, he2]
      refine ⟨Or.inr (Or.inr (Or.inl (by rw [hres]))), ?_, ?_, ?_⟩
      · rw [hres]
        show (readFileOpt (writeFileFS fs
          (joinPath MEDIA_PATH (normKey k2)) v2)
          (joinPath MEDIA_PATH (normKey k2))).isSome = true
        rw [readFileOpt_writeFileFS_self]
        rfl
      · rw [hres]
        show jsTrim ((readFileOpt (writeFileFS fs
          (joinPath MEDIA_PATH (normKey k2)) v2)
          (joinPath MEDIA_PATH (normKey k2))).getD "") = jsTrim v2
        rw [readFileOpt_writeFileFS_self]
        rfl
      · rw [hres]
        intro _
        show readFileOpt (writeFileFS fs
          (joinPath MEDIA_PATH (normKey k2)) v2)
          (joinPath MEDIA_PATH (normKey k2)) = some v2
        exact readFileOpt_writeFileFS_self fs _ v2
  · rw [hP] at he1
    have hdirW : dirAvailable (writeFileFS fs
        (joinPath MEDIA_PATH (normKey k2)) v1)
        (joinPath MEDIA_PATH (normKey k2)) = true := hdir
    have hveq : readFileOpt (writeFileFS fs
        (joinPath MEDIA_PATH (normKey k2)) v1)
        (joinPath MEDIA_PATH (normKey k2)) = some v1 :=
      readFileOpt_writeFileFS_self fs _ v1
    rcases processEntry_avail (writeFileFS fs
        (joinPath MEDIA_PATH (normKey k2)) v1) k2 v2 hk2 hv2 hdirW with
      ⟨c2, hc2, ht2, he2⟩ | he2
    · have hc2v : c2 = v1 := Option.some.inj (hc2.symm.trans hveq)
      have ht2v : jsTrim v1 = jsTrim v2 := hc2v ▸ ht2
      have hres : processEntries fs [(k1, v1), (k2, v2)] =
          (writeFileFS fs (joinPath MEDIA_PATH (normKey k2)) v1,
           [Outcome.updated, Outcome.skipped]) := by
        simp only [processEntries_two, he1, he2]
      refine ⟨Or.inr (Or.inl (by rw [hres])), ?_, ?_, ?_⟩
      · rw [hres]
        show (readFileOpt (writeFileFS fs
          (joinPath MEDIA_PATH (normKey k2)) v1)
          (joinPath MEDIA_PATH (normKey k2))).isSome = true
        rw [hveq]
        rfl
      · rw [hres]
        show jsTrim ((readFileOpt (writeFileFS fs
          (joinPath MEDIA_PATH (normKey k2)) v1)
          (joinPath MEDIA_PATH (normKey k2))).getD "") = jsTrim v2
        rw [hveq]
        exact ht2v
      · rw [hres]
        intro hcon
        exact absurd (show [Outcome.updated, Outcome.skipped].getLast? =
          some Outcome.updated from hcon) (by decide)
    · have hres : processEntries fs [(k1, v1), (k2, v2)] =
          (writeFileFS (writeFileFS fs
            (joinPath MEDIA_PATH (normKey k2)) v1)
            (joinPath MEDIA_PATH (normKey k2)) v2,
           [Outcome.updated, Outcome.updated]) := by
        simp only [processEntries_two, he1, he2]
      refine ⟨Or.inl (by rw [hres]), ?_, ?_, ?_⟩
      · rw [hres]
        show (readFileOpt (writeFileFS (writeFileFS fs
          (joinPath MEDIA_PATH (normKey k2)) v1)
          (joinPath MEDIA_PATH (normKey k2)) v2)
          (joinPath MEDIA_PATH (normKey k2))).isSome = true
        rw [readFileOpt_writeFileFS_self]
        rfl
      · rw [hres]
        show jsTrim ((readFileOpt (writeFileFS (writeFileFS fs
          (joinPath MEDIA_PATH (normKey k2)) v1)
          (joinPath MEDIA_PATH (normKey k2)) v2)
          (joinPath MEDIA_PATH (normKey k2))).getD "") = jsTrim v2
        rw [readFileOpt_writeFileFS_self]
        rfl
      · rw [hres]
        intro _
        show readFileOpt (writeFileFS (writeFileFS fs
          (joinPath MEDIA_PATH (normKey k2)) v1)
          (joinPath MEDIA_PATH (normKey k2)) v2)
          (joinPath MEDIA_PATH (normKey k2)) = some v2
        exact readFileOpt_writeFileFS_self _ _ v2

theorem claim10_witness :
    ((processEntries ⟨[], [], []⟩ [("Foo", "u1"), ("Foo.strm", "u2")]).2 =
        [Outcome.updated, Outcome.updated] ∨
     (processEntries ⟨[], [], []⟩ [("Foo", "u1"), ("Foo.strm", "u2")]).2 =
        [Outcome.updated, Outcome.skipped] ∨
     (processEntries ⟨[], [], []⟩ [("Foo", "u1"), ("Foo.strm", "u2")]).2 =
        [Outcome.skipped, Outcome.updated] ∨
     (processEntries ⟨[], [], []⟩ [("Foo", "u1"), ("Foo.strm", "u2")]).2 =
        [Outcome.skipped, Outcome.skipped]) ∧
    (readFileOpt (processEntries ⟨[], [], []⟩
      [("Foo", "u1"), ("Foo.strm", "u2")]).1
      (joinPath MEDIA_PATH (normKey "Foo.strm"))).isSome = true ∧
    jsTrim ((readFileOpt (processEntries ⟨[], [], []⟩
      [("Foo", "u1"), ("Foo.strm", "u2")]).1
      (joinPath MEDIA_PATH (normKey "Foo.strm"))).getD "") = jsTrim "u2" ∧
    ((processEntries ⟨[], [], []⟩
        [("Foo", "u1"), ("Foo.strm", "u2")]).2.getLast? =
        some Outcome.updated →
      readFileOpt (processEntries ⟨[], [], []⟩
        [("Foo", "u1"), ("Foo.strm", "u2")]).1
        (joinPath MEDIA_PATH (normKey "Foo.strm")) = some "u2") :=
  claim10_collision_amended ⟨[], [], []⟩ "Foo" "Foo.strm" "u1" "u2"
    (by decide) (by decide) (by decide) (by decide) (by decide) (by decide)
